import Mathlib

/-!
Verification of the torrent metainfo loader (`src/metainfo/metainfo.go`).

Byte sequences are modelled as `String` (bencode byte-strings and raw
encoded buffers alike).  The lenient decoder's dynamic value tree
(go-bencode's `interface{}` values: `int64`, `[]uint8`, `[]interface{}`,
`map[string]interface{}`) is the closed variant `Bvalue`.  A Go type
assertion `x.(T)` that fails panics; `newBts` recovers every panic and
returns `nil`, so in this embedding every failed assertion is `none`
propagated through the whole recovery computation.

External collaborators (the strict bencode codec, the lenient decoder and
the SHA-1 digest) are not part of `src/`; functions that call them take
them as explicit arguments, and concrete modelled instances (marked
`Modelled from the spec:`) are supplied where a closed computation is
needed.
-/

namespace Metainfo

/-- Dynamic value tree produced by the lenient (go-bencode) decode:
integer, byte-string, list or key-value map. -/
inductive Bvalue where
  | int (i : Int)
  | str (s : String)
  | list (l : List Bvalue)
  | dict (m : List (String × Bvalue))

/-- One multi-file entry (`FileInfo` in the Go model): byte length plus
path segments. -/
structure FileInfo where
  Length : Int := 0
  Path : List String := []
  deriving DecidableEq

/-- The info dictionary (`Info` in the Go model); fields default to Go
zero values. -/
structure Info where
  PieceLength : Int := 0
  Pieces : String := ""
  Name : String := ""
  Length : Int := 0
  Private : Option Bool := none
  Source : String := ""
  Files : List FileInfo := []
  deriving DecidableEq

/-- The top-level descriptor (`MetaInfo` in the Go source, lines 14-27);
fields default to Go zero values.  `InfoBytes` holds the raw bencoded
info dictionary. -/
structure MetaInfo where
  InfoBytes : String := ""
  Announce : String := ""
  AnnounceList : List (List String) := []
  Nodes : List String := []
  CreationDate : Int := 0
  Comment : String := ""
  CreatedBy : String := ""
  Encoding : String := ""
  UrlList : List String := []
  deriving DecidableEq

/-- Lookup of a key in a dynamic map (Go `miDe["key"]`, `nil` when
absent). -/
def dictGet : List (String × Bvalue) → String → Option Bvalue
  | [], _ => none
  | (k, v) :: rest, key => if k = key then some v else dictGet rest key

/-- Go type assertion `.([]uint8)`: `none` is a panic. -/
def asStr : Bvalue → Option String
  | .str s => some s
  | _ => none

/-- Go type assertion `.(int64)`: `none` is a panic. -/
def asInt : Bvalue → Option Int
  | .int i => some i
  | _ => none

/-- Go assertion `.([]interface{})` followed by `.([]uint8)` on every
element (the `announce-list` and `url-list` loops): `none` is a panic. -/
def asStrList : Bvalue → Option (List String)
  | .list l => l.mapM asStr
  | _ => none

/-- An optional field guarded by `if x != nil` in the source: absent is
fine (`some none`), present runs the assertion, whose failure (panic)
aborts the whole recovery (`none`). -/
def optField {α : Type} (v : Option Bvalue) (f : Bvalue → Option α) : Option (Option α) :=
  match v with
  | none => some none
  | some x => (f x).map some

/-- Path-segment extraction for one file entry (source lines 153-160):
a non-list `path` silently yields no segments, a list `path` asserts
`.([]uint8)` on every segment (panic aborts recovery). -/
def pathSegs : Bvalue → Option (List String)
  | .list ws => ws.mapM asStr
  | _ => some []

/-- The `files` loop body for one entry (source lines 142-166): a
non-map entry is skipped, a map entry asserts its `length` (panic on a
non-integer, `none`), then the entry is kept (`some (some fi)`) only
when its `path` yields at least one segment, else dropped
(`some none`). -/
def entryStep : Bvalue → Option (Option FileInfo)
  | .dict fm =>
    (optField (dictGet fm "length") asInt).bind fun lt =>
    match dictGet fm "path" with
    | none => some none
    | some pv =>
      (pathSegs pv).bind fun fls =>
      if fls.length > 0 then some (some { Length := lt.getD 0, Path := fls })
      else some none
  | _ => some none

/-- The `files` loop (source lines 142-166): entries processed in
order, dropped entries omitted, a panic in any entry (`none`) aborting
the whole recovery. -/
def processFiles : List Bvalue → Option (List FileInfo)
  | [] => some []
  | x :: rest =>
    match entryStep x with
    | none => none
    | some none => processFiles rest
    | some (some fi) => (processFiles rest).map (fun fs => fi :: fs)

/-- The `files` field (source lines 138-169): absent or of non-list
shape leaves `Files` at its zero value; a list is folded by
`processFiles`. -/
def filesField : Option Bvalue → Option (List FileInfo)
  | none => some []
  | some (.list l) => processFiles l
  | some _ => some []

/-- Reconstruction of the info dictionary from the dynamic `info` map
(source lines 108-169).  `none` means the recovery of the whole document
aborts: `pieces` absent (explicit `return nil`, line 123) or any failed
type assertion (panic). -/
def buildInfo (im : List (String × Bvalue)) : Option Info :=
  (optField (dictGet im "piece length") asInt).bind fun pl =>
  match dictGet im "pieces" with
  | none => none
  | some pv =>
    (asStr pv).bind fun pieces =>
    (optField (dictGet im "name") asStr).bind fun name =>
    (optField (dictGet im "length") asInt).bind fun len =>
    (optField (dictGet im "private") asInt).bind fun priv =>
    (optField (dictGet im "source") asStr).bind fun src =>
    (filesField (dictGet im "files")).map fun files =>
      { PieceLength := pl.getD 0
        Pieces := pieces
        Name := name.getD ""
        Length := len.getD 0
        Private := priv.map (fun i => decide (i = 1))
        Source := src.getD ""
        Files := files }

/-- The `info` branch of the recovery (source lines 104-173): a map is
rebuilt by `buildInfo` and re-encoded by the injected marshaller (a
failed marshal leaves `InfoBytes` empty, lines 170-172); any other shape
falls through the type switch and leaves `InfoBytes` empty. -/
def infoBytesOf (marshalInfo : Info → Option String) : Bvalue → Option String
  | .dict im => (buildInfo im).map (fun i => (marshalInfo i).getD "")
  | _ => some ""

/-- The body of `newBts` after the lenient decode (source lines 60-176):
builds the recovered `MetaInfo` from the dynamic tree, `none` when the
tree is not a map, when `info` is absent (line 175), or on any panic. -/
def newBtsCore (marshalInfo : Info → Option String) : Bvalue → Option MetaInfo
  | .dict m =>
    (optField (dictGet m "announce") asStr).bind fun announce =>
    (optField (dictGet m "announce-list") asStrList).bind fun alist =>
    (optField (dictGet m "creation date") asInt).bind fun cdate =>
    (optField (dictGet m "comment") asStr).bind fun comment =>
    (optField (dictGet m "created by") asStr).bind fun createdBy =>
    (optField (dictGet m "encoding") asStr).bind fun encoding =>
    (optField (dictGet m "url-list") asStrList).bind fun urlList =>
    match dictGet m "info" with
    | none => none
    | some iv =>
      (infoBytesOf marshalInfo iv).map fun ib =>
        { InfoBytes := ib
          Announce := announce.getD ""
          AnnounceList := (alist.getD []).map fun s => [s]
          CreationDate := cdate.getD 0
          Comment := comment.getD ""
          CreatedBy := createdBy.getD ""
          Encoding := encoding.getD ""
          UrlList := urlList.getD [] }
  | _ => none

/-- `newBts` (source lines 52-183): lenient decode, tree recovery, then
re-encoding of the recovered descriptor through the injected marshaller
(a failed marshal falls through to `return nil`, lines 178-182). -/
def newBts (lenient : String → Option Bvalue) (marshalInfo : Info → Option String)
    (marshalMi : MetaInfo → Option String) (rb : String) : Option String :=
  match lenient rb with
  | none => none
  | some t =>
    match newBtsCore marshalInfo t with
    | none => none
    | some mi => marshalMi mi

/-- `LoadBytes` (source lines 41-50): strict decode first; on failure a
recovery candidate is strict-decoded, and when recovery yields nothing
the original strict error is returned. -/
def LoadBytes (load : String → Except String MetaInfo) (lenient : String → Option Bvalue)
    (marshalInfo : Info → Option String) (marshalMi : MetaInfo → Option String)
    (bts : String) : Except String MetaInfo :=
  match load bts with
  | .ok mi => .ok mi
  | .error err =>
    match newBts lenient marshalInfo marshalMi bts with
    | some nbts => load nbts
    | none => .error err

/-- Modelled from the spec: `AnnounceList.OverridesAnnounce` (not under
`src/`) — the tiered list overrides the primary announce URL when it
"already contains the primary announce URL anywhere within its first
tier". -/
def OverridesAnnounce (al : List (List String)) (announce : String) : Bool :=
  decide (announce ∈ al.headD [])

/-- `UpvertedAnnounceList` (source lines 237-245): the tiered list when
it overrides the primary announce, else a single-tier list of the
primary announce when non-empty, else the empty list. -/
def MetaInfo.UpvertedAnnounceList (mi : MetaInfo) : List (List String) :=
  if OverridesAnnounce mi.AnnounceList mi.Announce then mi.AnnounceList
  else if mi.Announce ≠ "" then [[mi.Announce]]
  else []

/-- Modelled from the spec: `AnnounceList.DistinctValues` (not under
`src/`) — "the distinct values (order of first occurrence, duplicates
removed) from the upverted announce list". -/
def DistinctValues (al : List (List String)) : List String :=
  al.flatten.foldl (fun acc t => if t ∈ acc then acc else acc ++ [t]) []

/-- A magnet link view (the `Magnet` type is not under `src/`; fields
modelled from the spec: display name, info hash, trackers, web-seed
parameters). -/
structure Magnet where
  Trackers : List String := []
  DisplayName : String := ""
  InfoHash : String := ""
  Params : List (String × List String) := []
  deriving DecidableEq

/-- `MetaInfo.Magnet` (source lines 218-233): trackers from the distinct
values of the upverted announce list, display name from the optional
parsed info, hash from the optional precomputed hash or else computed by
the injected digest over `InfoBytes`, web seeds attached as the `ws`
parameter. -/
def MetaInfo.Magnet (mi : MetaInfo) (hashBytes : String → String)
    (infoHash : Option String) (info : Option Info) : Magnet :=
  { Trackers := DistinctValues mi.UpvertedAnnounceList
    DisplayName := match info with | some i => i.Name | none => ""
    InfoHash := match infoHash with | some h => h | none => hashBytes mi.InfoBytes
    Params := [("ws", mi.UrlList)] }

/-- `SetDefaults` (source lines 210-215): clears the comment, stamps the
fixed creator tag and the current wall-clock time (passed here as the
explicit argument `now`). -/
def MetaInfo.SetDefaults (mi : MetaInfo) (now : Int) : MetaInfo :=
  { mi with Comment := "", CreatedBy := "github.com/anacrolix/torrent", CreationDate := now }

/-- Modelled from the spec: bencode encoding of an integer (codec
collaborator, not under `src/`). -/
def encInt (i : Int) : String :=
  "i" ++ toString i ++ "e"

/-- Modelled from the spec: bencode encoding of a byte-string (codec
collaborator, not under `src/`). -/
def encStr (s : String) : String :=
  toString s.length ++ ":" ++ s

/-- Modelled from the spec: bencode encoding of a list of byte-strings. -/
def encStrList (l : List String) : String :=
  "l" ++ String.join (l.map encStr) ++ "e"

/-- Modelled from the spec: bencode encoding of one file entry. -/
def encFile (f : FileInfo) : String :=
  "d6:length" ++ encInt f.Length ++ "4:path" ++ encStrList f.Path ++ "e"

/-- Modelled from the spec: the strict bencode marshalling of the
reconstructed info structure into canonical `InfoBytes` (codec
collaborator, not under `src/`): keys in sorted order, empty optional
fields omitted. -/
def marshalInfoModel (info : Info) : Option String :=
  some ("d"
    ++ (if info.Files = [] then "" else
          "5:files" ++ "l" ++ String.join (info.Files.map encFile) ++ "e")
    ++ (if info.Length = 0 then "" else "6:length" ++ encInt info.Length)
    ++ (if info.Name = "" then "" else "4:name" ++ encStr info.Name)
    ++ "12:piece length" ++ encInt info.PieceLength
    ++ "6:pieces" ++ encStr info.Pieces
    ++ (match info.Private with
        | none => ""
        | some b => "7:private" ++ encInt (if b then 1 else 0))
    ++ (if info.Source = "" then "" else "6:source" ++ encStr info.Source)
    ++ "e")

/-- Modelled from the spec: the strict bencode marshalling of the whole
recovered descriptor (codec collaborator, not under `src/`): keys in
sorted order, empty optional fields omitted, `InfoBytes` spliced in raw. -/
def marshalMiModel (mi : MetaInfo) : Option String :=
  some ("d"
    ++ (if mi.Announce = "" then "" else "8:announce" ++ encStr mi.Announce)
    ++ (if mi.AnnounceList = [] then "" else
          "13:announce-list" ++ "l" ++ String.join (mi.AnnounceList.map encStrList) ++ "e")
    ++ (if mi.Comment = "" then "" else "7:comment" ++ encStr mi.Comment)
    ++ (if mi.CreatedBy = "" then "" else "10:created by" ++ encStr mi.CreatedBy)
    ++ (if mi.CreationDate = 0 then "" else "13:creation date" ++ encInt mi.CreationDate)
    ++ (if mi.Encoding = "" then "" else "8:encoding" ++ encStr mi.Encoding)
    ++ (if mi.InfoBytes = "" then "" else "4:info" ++ mi.InfoBytes)
    ++ (if mi.UrlList = [] then "" else "8:url-list" ++ encStrList mi.UrlList)
    ++ "e")

/-- A lenient decoder yielding no tree on any input, used to instantiate
theorems at concrete collaborator functions. -/
def lenientNone : String → Option Bvalue :=
  fun _ => none

/-- A strict decoder failing on every input with a fixed error. -/
def strictFail : String → Except String MetaInfo :=
  fun _ => .error "boom"

/-- A strict decoder accepting every input with a fixed descriptor. -/
def strictOk : String → Except String MetaInfo :=
  fun _ => .ok {}

/-! ## Helper lemmas -/

theorem bind_none_of {α β : Type} (x : Option α) (g : α → Option β)
    (h : ∀ a, g a = none) : x.bind g = none := by
  cases x with
  | none => rfl
  | some a => exact h a

theorem optField_some_none {α : Type} (v : Bvalue) (f : Bvalue → Option α)
    (h : f v = none) : optField (some v) f = none := by
  simp [optField, h]

theorem buildInfo_none_of_pieces (im : List (String × Bvalue))
    (h : dictGet im "pieces" = none ∨
      ∃ v, dictGet im "pieces" = some v ∧ asStr v = none) :
    buildInfo im = none := by
  simp only [buildInfo]
  apply bind_none_of
  intro pl
  rcases h with h | ⟨v, hv, hs⟩
  · rw [h]
  · rw [hv]
    simp [hs]

theorem newBtsCore_none_of_info (f : Info → Option String) (m : List (String × Bvalue))
    (h : dictGet m "info" = none ∨
      ∃ im, dictGet m "info" = some (.dict im) ∧
        (dictGet im "pieces" = none ∨
          ∃ v, dictGet im "pieces" = some v ∧ asStr v = none)) :
    newBtsCore f (.dict m) = none := by
  simp only [newBtsCore]
  apply bind_none_of; intro a1
  apply bind_none_of; intro a2
  apply bind_none_of; intro a3
  apply bind_none_of; intro a4
  apply bind_none_of; intro a5
  apply bind_none_of; intro a6
  apply bind_none_of; intro a7
  rcases h with h | ⟨im, hi, hp⟩
  · rw [h]
  · rw [hi]
    simp only [infoBytesOf, buildInfo_none_of_pieces im hp]
    rfl

/-! ## Claim theorems -/

/-- C1: for every byte sequence on which strict decode fails and the
recovery decoder yields no candidate, `LoadBytes` returns the original
strict-decode error, never a recovery-specific one. -/
theorem load_bytes_propagates_original_error
    (load : String → Except String MetaInfo) (lenient : String → Option Bvalue)
    (mI : Info → Option String) (mMi : MetaInfo → Option String)
    (bts : String) (err : String)
    (hstrict : load bts = .error err)
    (hrec : newBts lenient mI mMi bts = none) :
    LoadBytes load lenient mI mMi bts = .error err := by
  simp only [LoadBytes, hstrict, hrec]

theorem load_bytes_propagates_original_error_witness :
    strictFail "" = .error "boom" ∧
    newBts lenientNone marshalInfoModel marshalMiModel "" = none ∧
    LoadBytes strictFail lenientNone marshalInfoModel marshalMiModel "" = .error "boom" :=
  ⟨rfl, rfl,
    load_bytes_propagates_original_error strictFail lenientNone marshalInfoModel
      marshalMiModel "" "boom" rfl rfl⟩

/-- C4: for every byte sequence that strict decode accepts, `LoadBytes`
returns exactly the strict-decode result and the recovery path is not
exercised. -/
theorem load_bytes_strict_success_identical
    (load : String → Except String MetaInfo) (lenient : String → Option Bvalue)
    (mI : Info → Option String) (mMi : MetaInfo → Option String)
    (bts : String) (mi : MetaInfo)
    (hstrict : load bts = .ok mi) :
    LoadBytes load lenient mI mMi bts = .ok mi := by
  simp only [LoadBytes, hstrict]

theorem load_bytes_strict_success_identical_witness :
    strictOk "" = .ok {} ∧
    LoadBytes strictOk lenientNone marshalInfoModel marshalMiModel "" = .ok {} :=
  ⟨rfl,
    load_bytes_strict_success_identical strictOk lenientNone marshalInfoModel
      marshalMiModel "" {} rfl⟩

/-- C2: for every dynamic value tree whose top-level map lacks `info`,
or whose `info` map lacks `pieces`, or whose `pieces` value is not a
byte-string, the recovery decoder `newBts` returns no result. -/
theorem recovery_none_when_info_or_pieces_missing
    (lenient : String → Option Bvalue) (mI : Info → Option String)
    (mMi : MetaInfo → Option String) (rb : String) (m : List (String × Bvalue))
    (hlen : lenient rb = some (.dict m))
    (h : dictGet m "info" = none ∨
      ∃ im, dictGet m "info" = some (.dict im) ∧
        (dictGet im "pieces" = none ∨
          ∃ v, dictGet im "pieces" = some v ∧ asStr v = none)) :
    newBts lenient mI mMi rb = none := by
  simp only [newBts, hlen, newBtsCore_none_of_info mI m h]

theorem recovery_none_when_info_or_pieces_missing_witness :
    (fun _ : String => some (Bvalue.dict [])) "" = some (Bvalue.dict []) ∧
    dictGet ([] : List (String × Bvalue)) "info" = none ∧
    newBts (fun _ => some (Bvalue.dict [])) marshalInfoModel marshalMiModel "" = none :=
  ⟨rfl, rfl,
    recovery_none_when_info_or_pieces_missing (fun _ => some (Bvalue.dict []))
      marshalInfoModel marshalMiModel "" [] rfl (Or.inl rfl)⟩

/-- C5 counterexample: a tree whose `creation date` is a byte-string
(every other field well-formed, `info.pieces` present) makes the
recovery decoder abort with no result instead of omitting the field and
producing a Descriptor. -/
theorem creation_date_mismatch_not_tolerated_cex :
    newBts
      (fun _ => some (Bvalue.dict
        [("creation date", Bvalue.str "x"),
         ("info", Bvalue.dict [("pieces", Bvalue.str "pp")])]))
      marshalInfoModel marshalMiModel "x" = none := by
  rfl

/-- C5 (amended): when `creation date` is present with a non-integer
value, the recovery decoder aborts and returns no result: the
type-mismatch tolerance for `creation date` lives in the strict
decoder's `ignore_unmarshal_type_error` tag, not in recovery. -/
theorem creation_date_mismatch_aborts_recovery
    (f : Info → Option String) (m : List (String × Bvalue)) (v : Bvalue)
    (hv : dictGet m "creation date" = some v) (hint : asInt v = none) :
    newBtsCore f (.dict m) = none := by
  simp only [newBtsCore]
  apply bind_none_of; intro a1
  apply bind_none_of; intro a2
  rw [hv, optField_some_none v asInt hint]
  rfl

theorem creation_date_mismatch_aborts_recovery_witness :
    dictGet [("creation date", Bvalue.str "x")] "creation date" = some (Bvalue.str "x") ∧
    asInt (Bvalue.str "x") = none ∧
    newBtsCore marshalInfoModel (.dict [("creation date", Bvalue.str "x")]) = none :=
  ⟨rfl, rfl,
    creation_date_mismatch_aborts_recovery marshalInfoModel
      [("creation date", Bvalue.str "x")] (Bvalue.str "x") rfl rfl⟩

/-- C3: evaluation at the failing input. A tree whose `announce-list`
is flattened (which is what makes strict decode reject the original
bytes) and whose `info` is an integer rather than a map: the recovery
decoder does not abort — it falls through the info type switch and
yields a candidate descriptor whose `InfoBytes` is empty, which strict
decode then accepts, so `LoadBytes` hands back a partial Descriptor. -/
theorem recovery_partial_descriptor_on_nonmap_info :
    newBtsCore marshalInfoModel
      (.dict [("announce-list", Bvalue.list [Bvalue.str "http://a"]), ("info", Bvalue.int 3)])
      = some { AnnounceList := [["http://a"]] } ∧
    ({ AnnounceList := [["http://a"]] } : MetaInfo).InfoBytes = "" := by
  exact ⟨rfl, rfl⟩

/-- Links `buildInfo` success to the extraction of the `private` field:
the reconstructed `Private` is the image of whatever `optField`
extracted under the comparison with 1. -/
theorem buildInfo_private_eq (im : List (String × Bvalue)) (info : Info)
    (h : buildInfo im = some info) :
    ∃ priv, optField (dictGet im "private") asInt = some priv ∧
      info.Private = priv.map (fun i => decide (i = 1)) := by
  simp only [buildInfo, Option.bind_eq_some] at h
  obtain ⟨pl, hpl, h⟩ := h
  cases hps : dictGet im "pieces" with
  | none => rw [hps] at h; simp at h
  | some pv =>
    rw [hps] at h
    simp only [Option.bind_eq_some] at h
    obtain ⟨pieces, hpcs, h⟩ := h
    obtain ⟨name, hname, h⟩ := h
    obtain ⟨len, hlen, h⟩ := h
    obtain ⟨priv, hpriv, h⟩ := h
    obtain ⟨src, hsrc, h⟩ := h
    simp only [Option.map_eq_some'] at h
    obtain ⟨files, hfl, hinfo⟩ := h
    exact ⟨priv, hpriv, by rw [← hinfo]⟩

/-- C6 counterexample: `private` present with the nonzero value 2 is
reconstructed as `false`, not `true` as the claim states. -/
theorem private_nonzero_not_true_cex :
    (buildInfo [("pieces", Bvalue.str "p"), ("private", Bvalue.int 2)]).map Info.Private
      = some (some false) ∧
    (buildInfo [("pieces", Bvalue.str "p"), ("private", Bvalue.int 2)]).map Info.Private
      ≠ some (some true) := by
  exact ⟨rfl, by decide⟩

/-- C6 (amended): in the recovery decoder the `private` field is
tri-state with `true` exactly when the integer equals 1: present with
value 1 resolves to `true`, present with any other integer value
resolves to `false`, absent stays unset — never defaulted. -/
theorem private_flag_tristate :
    (∀ (im : List (String × Bvalue)) (n : Int) (info : Info),
      dictGet im "private" = some (.int n) → buildInfo im = some info →
        info.Private = some (decide (n = 1)))
    ∧ (∀ (im : List (String × Bvalue)) (info : Info),
      dictGet im "private" = none → buildInfo im = some info →
        info.Private = none) := by
  constructor
  · intro im n info hn hb
    obtain ⟨priv, hpriv, hp⟩ := buildInfo_private_eq im info hb
    rw [hn] at hpriv
    simp only [optField, asInt, Option.map_some', Option.some.injEq] at hpriv
    rw [hp, ← hpriv]
    rfl
  · intro im info hn hb
    obtain ⟨priv, hpriv, hp⟩ := buildInfo_private_eq im info hb
    rw [hn] at hpriv
    simp only [optField, Option.some.injEq] at hpriv
    rw [hp, ← hpriv]
    rfl

theorem private_flag_tristate_witness :
    dictGet [("pieces", Bvalue.str "p"), ("private", Bvalue.int 1)] "private"
      = some (Bvalue.int 1) ∧
    buildInfo [("pieces", Bvalue.str "p"), ("private", Bvalue.int 1)]
      = some { Pieces := "p", Private := some true } ∧
    ({ Pieces := "p", Private := some true } : Info).Private = some (decide ((1 : Int) = 1)) :=
  ⟨rfl, rfl,
    private_flag_tristate.1 [("pieces", Bvalue.str "p"), ("private", Bvalue.int 1)] 1
      { Pieces := "p", Private := some true } rfl rfl⟩

/-- A file entry with a well-formed (or absent) `length` and an empty
or absent `path` is dropped rather than aborting the loop. -/
theorem entryStep_drop (fm : List (String × Bvalue))
    (hlen : dictGet fm "length" = none ∨ ∃ i, dictGet fm "length" = some (.int i))
    (hpath : dictGet fm "path" = none ∨ dictGet fm "path" = some (.list [])) :
    entryStep (.dict fm) = some none := by
  rcases hlen with h | ⟨i, h⟩ <;> rcases hpath with h2 | h2 <;>
    simp [entryStep, h, h2, optField, asInt, pathSegs, List.mapM_nil] <;> rfl

/-- Processing a file list depends on the tail only through its own
result. -/
theorem processFiles_tail_congr (x : Bvalue) {r r' : List Bvalue}
    (h : processFiles r = processFiles r') :
    processFiles (x :: r) = processFiles (x :: r') := by
  simp only [processFiles]
  cases entryStep x with
  | none => rfl
  | some o =>
    cases o with
    | none => exact h
    | some fi => rw [h]

/-- C7: a `files` entry whose `path` is absent or empty is omitted from
the reconstructed file list without aborting the recovery — processing
the list with the entry equals processing it without the entry — and,
end to end, `buildInfo` on an info map holding one such entry next to a
well-formed entry keeps exactly the well-formed one. -/
theorem files_entry_without_path_dropped :
    (∀ (l₁ l₂ : List Bvalue) (fm : List (String × Bvalue)),
      (dictGet fm "length" = none ∨ ∃ i, dictGet fm "length" = some (.int i)) →
      (dictGet fm "path" = none ∨ dictGet fm "path" = some (.list [])) →
      processFiles (l₁ ++ Bvalue.dict fm :: l₂) = processFiles (l₁ ++ l₂))
    ∧ (buildInfo [("pieces", Bvalue.str "pp"),
        ("files", Bvalue.list
          [Bvalue.dict [("length", Bvalue.int 3)],
           Bvalue.dict [("length", Bvalue.int 5), ("path", Bvalue.list [Bvalue.str "a"])]])]).map
        Info.Files = some [{ Length := 5, Path := ["a"] }] := by
  constructor
  · intro l₁ l₂ fm hlen hpath
    induction l₁ with
    | nil =>
      simp only [List.nil_append, processFiles, entryStep_drop fm hlen hpath]
    | cons x xs ih =>
      simpa only [List.cons_append] using processFiles_tail_congr x ih
  · rfl

theorem files_entry_without_path_dropped_witness :
    (dictGet ([] : List (String × Bvalue)) "length" = none ∨
      ∃ i, dictGet ([] : List (String × Bvalue)) "length" = some (.int i)) ∧
    (dictGet ([] : List (String × Bvalue)) "path" = none ∨
      dictGet ([] : List (String × Bvalue)) "path" = some (.list [])) ∧
    processFiles ([] ++ Bvalue.dict [] :: []) = processFiles ([] ++ []) :=
  ⟨Or.inl rfl, Or.inl rfl,
    files_entry_without_path_dropped.1 [] [] [] (Or.inl rfl) (Or.inl rfl)⟩

/-- C8: the upvert rule — the tiered list is returned unchanged when its
first tier contains the primary announce URL; otherwise a non-empty
primary announce becomes a single-tier list; otherwise the list is
empty — together with the three concrete cases of the spec. -/
theorem upverted_announce_list_rule :
    (∀ mi : MetaInfo, mi.Announce ∈ mi.AnnounceList.headD [] →
      mi.UpvertedAnnounceList = mi.AnnounceList)
    ∧ (∀ mi : MetaInfo, mi.Announce ∉ mi.AnnounceList.headD [] → mi.Announce ≠ "" →
      mi.UpvertedAnnounceList = [[mi.Announce]])
    ∧ (∀ mi : MetaInfo, mi.Announce ∉ mi.AnnounceList.headD [] → mi.Announce = "" →
      mi.UpvertedAnnounceList = [])
    ∧ MetaInfo.UpvertedAnnounceList { Announce := "http://a" } = [["http://a"]]
    ∧ MetaInfo.UpvertedAnnounceList { Announce := "http://a", AnnounceList := [["http://a"]] }
      = [["http://a"]]
    ∧ MetaInfo.UpvertedAnnounceList {} = [] := by
  refine ⟨?_, ?_, ?_, rfl, rfl, rfl⟩
  · intro mi h
    have hov : OverridesAnnounce mi.AnnounceList mi.Announce = true := by
      simpa [OverridesAnnounce] using h
    simp [MetaInfo.UpvertedAnnounceList, hov]
  · intro mi h hne
    have hov : OverridesAnnounce mi.AnnounceList mi.Announce = false := by
      simpa [OverridesAnnounce] using h
    simp [MetaInfo.UpvertedAnnounceList, hov, hne]
  · intro mi h he
    have hov : OverridesAnnounce mi.AnnounceList mi.Announce = false := by
      simpa [OverridesAnnounce] using h
    rw [he] at hov
    simp [MetaInfo.UpvertedAnnounceList, he, hov]

theorem upverted_announce_list_rule_witness :
    ({ Announce := "http://a", AnnounceList := [["http://a"]] } : MetaInfo).Announce ∈
      (({ Announce := "http://a", AnnounceList := [["http://a"]] } : MetaInfo).AnnounceList.headD []) ∧
    MetaInfo.UpvertedAnnounceList { Announce := "http://a", AnnounceList := [["http://a"]] }
      = ({ Announce := "http://a", AnnounceList := [["http://a"]] } : MetaInfo).AnnounceList :=
  ⟨by decide, upverted_announce_list_rule.1 _ (by decide)⟩

/-- The first-occurrence dedup fold keeps its accumulator free of
duplicates. -/
theorem dedupFoldl_nodup (l : List String) :
    ∀ acc : List String, acc.Nodup →
      (l.foldl (fun acc t => if t ∈ acc then acc else acc ++ [t]) acc).Nodup := by
  induction l with
  | nil => intro acc h; simpa using h
  | cons x xs ih =>
    intro acc h
    simp only [List.foldl_cons]
    by_cases hx : x ∈ acc
    · simpa [hx] using ih acc h
    · have hnd : (acc ++ [x]).Nodup := by
        simp [List.nodup_append, h, hx]
      simpa [hx] using ih _ hnd

/-- Membership in the first-occurrence dedup fold is membership in the
accumulator or in the folded list. -/
theorem dedupFoldl_mem (l : List String) :
    ∀ (acc : List String) (t : String),
      t ∈ l.foldl (fun acc t => if t ∈ acc then acc else acc ++ [t]) acc ↔
        t ∈ acc ∨ t ∈ l := by
  induction l with
  | nil => intro acc t; simp
  | cons x xs ih =>
    intro acc t
    simp only [List.foldl_cons]
    rw [ih]
    by_cases hx : x ∈ acc
    · simp only [if_pos hx, List.mem_cons]
      constructor
      · rintro (h | h)
        · exact Or.inl h
        · exact Or.inr (Or.inr h)
      · rintro (h | h | h)
        · exact Or.inl h
        · exact Or.inl (h ▸ hx)
        · exact Or.inr h
    · simp only [if_neg hx, List.mem_append, List.mem_singleton, List.mem_cons]
      tauto

/-- C9: the trackers of a built magnet are the distinct values of the
upverted announce list — duplicate-free, with membership exactly the
URLs of the upverted list — and on announce list
`[["http://a"], ["http://a"], ["http://b"]]` they are exactly
`["http://a", "http://b"]` (first occurrence order, duplicates
removed). -/
theorem magnet_trackers_distinct :
    (∀ (mi : MetaInfo) (hb : String → String) (ih : Option String) (inf : Option Info),
      (mi.Magnet hb ih inf).Trackers = DistinctValues mi.UpvertedAnnounceList)
    ∧ (∀ (mi : MetaInfo) (hb : String → String) (ih : Option String) (inf : Option Info),
      (mi.Magnet hb ih inf).Trackers.Nodup)
    ∧ (∀ (mi : MetaInfo) (hb : String → String) (ih : Option String) (inf : Option Info)
        (t : String),
      t ∈ (mi.Magnet hb ih inf).Trackers ↔ t ∈ mi.UpvertedAnnounceList.flatten)
    ∧ (MetaInfo.Magnet
        { Announce := "http://a", AnnounceList := [["http://a"], ["http://a"], ["http://b"]] }
        (fun _ => "") none none).Trackers = ["http://a", "http://b"] := by
  refine ⟨fun mi hb ih inf => rfl, ?_, ?_, rfl⟩
  · intro mi hb ih inf
    exact dedupFoldl_nodup _ [] List.nodup_nil
  · intro mi hb ih inf t
    simpa using dedupFoldl_mem mi.UpvertedAnnounceList.flatten [] t

/-- C10: `SetDefaults` touches only `Comment`, `CreatedBy` and
`CreationDate` — every other field of the descriptor is unchanged. -/
theorem set_defaults_frame (mi : MetaInfo) (now : Int) :
    (mi.SetDefaults now).InfoBytes = mi.InfoBytes ∧
    (mi.SetDefaults now).Announce = mi.Announce ∧
    (mi.SetDefaults now).AnnounceList = mi.AnnounceList ∧
    (mi.SetDefaults now).Nodes = mi.Nodes ∧
    (mi.SetDefaults now).Encoding = mi.Encoding ∧
    (mi.SetDefaults now).UrlList = mi.UrlList ∧
    (mi.SetDefaults now).Comment = "" ∧
    (mi.SetDefaults now).CreatedBy = "github.com/anacrolix/torrent" ∧
    (mi.SetDefaults now).CreationDate = now :=
  ⟨rfl, rfl, rfl, rfl, rfl, rfl, rfl, rfl, rfl⟩

end Metainfo
